import Mathlib

/-!
Verification of the consensus service-client event multiplexer and two
collaborator modules of this repository.

The development shallowly embeds:

* `serviceClientWorker` from `go/consensus/tendermint/full/services.go` —
  the per-service-client dispatch loop built on `reflect.Select` over a
  growing list of channels (`cases`) paired with a parallel `queries`
  list.  The reflect-select nondeterminism is modelled by quantifying
  over input traces: one `Input` is one result of `reflect.Select`
  (the chosen slot together with its typed payload, or a closure
  signal), and `step` is the body of the `for` loop.  A nil channel can
  never be selected, so an input naming a slot whose channel is nil is
  invalid; `step` answers `stuck` for such inputs (they cannot occur).
* `Open`, `Bundle.Validate` and `Bundle.Write` from
  `go/runtime/bundle/bundle.go`, with the JSON codec, the hash function
  and the file IO abstracted as parameters.
* `VerifyBatch` from the signature package, with the process-wide
  blacklist passed as explicit state and the underlying ed25519 batch
  verifier and `PrepareSignerMessage` as parameters; Go panics are
  reified as a `panicked` result.
-/

namespace Services

/-- One ABCI event (`tmabcitypes.Event`): a type tag plus key/value
attributes.  `GetType()` reads `type_`; the attributes are only ever
consumed by the opaque query matcher. -/
structure TmEvent where
  type_ : String
  attributes : List (String × String)
  deriving DecidableEq, Repr

/-- `tmtypes.EventDataNewBlockHeader`, restricted to the fields the worker
reads: `Header.Height`, `ResultBeginBlock.GetEvents()` and
`ResultEndBlock.GetEvents()`. -/
structure EventDataNewBlockHeader where
  headerHeight : Int
  beginEvents : List TmEvent
  endEvents : List TmEvent
  deriving DecidableEq, Repr

/-- `tmtypes.EventDataTx`, restricted to the fields the worker reads:
`Height`, `Tx` and `Result.Events`. -/
structure EventDataTx where
  height : Int
  tx : List Nat
  resultEvents : List TmEvent
  deriving DecidableEq, Repr

/-- `api.ServiceEvent`: a pair of nilable pointers.  Both `none` is the
"unknown event" shape handled by the loop's `default:` warning branch. -/
structure ServiceEvent where
  block : Option EventDataNewBlockHeader
  tx : Option EventDataTx
  deriving DecidableEq, Repr

/-- Outcome of `t.node.EventBus().SubscribeUnbuffered`: a usable
subscription, an error, or — during shutdown — a nil subscription with a
nil error. -/
inductive SubscribeRes where
  | ok
  | err
  | nilSub
  deriving DecidableEq, Repr

/-- The worker's external collaborators, passed as explicit parameters:
the descriptor's `EventType()`, the engine's query matcher
(`query.Matches` applied to a singleton event slice), the outcome of
subscribing to a query, and whether `svc.DeliverEvent` returns an error
for a given (height, tx, event) triple.  `DeliverBlock` and
`DeliverCommand` errors are only logged by the loop and change neither
state nor control flow, so they are not modelled. -/
structure Env (Q C : Type) where
  eventType : String
  matchQ : Q → TmEvent → Bool
  subscribeRes : Q → SubscribeRes
  devErr : Int → List Nat → TmEvent → Bool

/-- One result of `reflect.Select(cases)`, typed by the slot it came
from.  `closed n` is a receive with `recvOk = false` on slot `n`;
`subEvent n ev` is a receive on dynamic slot `4 + n` (the n-th
subscription buffer). -/
inductive Input (Q C : Type) where
  | ctxReady
  | closed (slot : Nat)
  | newBlock (h : Int)
  | newQuery (q : Q)
  | command (c : C)
  | subEvent (slot : Nat) (ev : ServiceEvent)
  deriving DecidableEq, Repr

/-- An invocation of the service client's delivery contract. -/
inductive Output (C : Type) where
  | deliverBlock (height : Int)
  | deliverCommand (height : Int) (c : C)
  | deliverEvent (height : Int) (tx : List Nat) (e : TmEvent)
  deriving DecidableEq, Repr

/-- The worker's mutable state: `cases` records, per select slot, whether
its channel is non-nil (a nil channel is never ready), `queries` is the
parallel per-slot query list, and `height` is the `var height int64` of
the loop. -/
structure WorkerState (Q : Type) where
  cases : List Bool
  queries : List (Option Q)
  height : Int
  deriving DecidableEq, Repr

variable {Q C : Type}

/-- The select-slot index an input arrives on (`chosen`). -/
def chosenIndex : Input Q C → Nat
  | .ctxReady => 0
  | .closed n => n
  | .newBlock _ => 1
  | .newQuery _ => 2
  | .command _ => 3
  | .subEvent n _ => 4 + n

/-- The fixed slots registered before the loop: context cancellation,
new-block headers, query registrations, and the command channel which
starts as a nil channel. -/
def initState : WorkerState Q :=
  { cases := [true, true, true, false]
    queries := [none, none, none, none]
    height := 0 }

/-- Whether the command slot currently holds a real channel
(`cases[indexCommands].Chan` is non-nil). -/
def cmdEnabled (st : WorkerState Q) : Bool := st.cases.getD 3 false

/-- The inner `for i, tmEv := range tmEvents` loop of the dispatch body:
skip events whose type differs from the descriptor's event type, skip
events not matching the slot's query, and otherwise invoke
`svc.DeliverEvent`; a delivery error is logged and processing continues
with the next event, so both arms of the error test emit the
invocation. -/
def deliverAll (env : Env Q C) (q : Q) (ht : Int) (tx : List Nat) :
    List TmEvent → List (Output C)
  | [] => []
  | e :: rest =>
    if e.type_ ≠ env.eventType then deliverAll env q ht tx rest
    else if !(env.matchQ q e) then deliverAll env q ht tx rest
    else if env.devErr ht tx e then
      Output.deliverEvent ht tx e :: deliverAll env q ht tx rest
    else
      Output.deliverEvent ht tx e :: deliverAll env q ht tx rest

/-- Result of one loop iteration: continue with a new state and the
delivery invocations made, return from the worker, or reject an input
that `reflect.Select` could never produce (a receive on a nil channel,
or a dynamic slot carrying no query — the latter would be a nil
dereference in Go and is unreachable because slots and queries are
appended together). -/
inductive StepRes (Q C : Type) where
  | cont (st : WorkerState Q) (outs : List (Output C))
  | halt
  | stuck
  deriving DecidableEq, Repr

/-- One iteration of the service client event loop, mirroring the
`switch chosen` dispatch in `serviceClientWorker`. -/
def step (env : Env Q C) (st : WorkerState Q) (i : Input Q C) : StepRes Q C :=
  if st.cases.getD (chosenIndex i) false then
    match i with
    | .closed n =>
      -- Replace closed channels with nil to avoid needless wakeups;
      -- for the context slot the loop then returns.
      if n = 0 then StepRes.halt
      else StepRes.cont { st with cases := st.cases.set n false } []
    | .ctxReady => StepRes.halt
    | .newQuery q =>
      match env.subscribeRes q with
      | .err => StepRes.cont st []
      | .nilSub => StepRes.cont st []
      | .ok =>
        StepRes.cont
          { st with
            cases := st.cases ++ [true]
            queries := st.queries ++ [some q] } []
    | .command c => StepRes.cont st [Output.deliverCommand st.height c]
    | .newBlock h =>
      -- Seen a block: if height is still 0, arm the command channel.
      let cs := if st.height = 0 then st.cases.set 3 true else st.cases
      StepRes.cont { st with cases := cs, height := h } [Output.deliverBlock h]
    | .subEvent n ev =>
      match ev.block, ev.tx with
      | some b, _ =>
        match st.queries.getD (4 + n) none with
        | some q =>
          StepRes.cont { st with height := b.headerHeight }
            (deliverAll env q b.headerHeight []
              (b.beginEvents ++ b.endEvents))
        | none => StepRes.stuck
      | none, some t =>
        match st.queries.getD (4 + n) none with
        | some q =>
          StepRes.cont { st with height := t.height }
            (deliverAll env q t.height t.tx t.resultEvents)
        | none => StepRes.stuck
      | none, none => StepRes.cont st []
  else StepRes.stuck

/-- Terminal classification of a finite run. -/
inductive RunState (Q : Type) where
  | running (st : WorkerState Q)
  | halted
  | stuck
  deriving DecidableEq, Repr

/-- Run the loop body over a finite input trace, concatenating the
delivery invocations in order. -/
def runS (env : Env Q C) : WorkerState Q → List (Input Q C) → RunState Q × List (Output C)
  | st, [] => (RunState.running st, [])
  | st, i :: rest =>
    match step env st i with
    | .stuck => (RunState.stuck, [])
    | .halt => (RunState.halted, [])
    | .cont st' outs =>
      ((runS env st' rest).1, outs ++ (runS env st' rest).2)

/-- Entry point of the worker: with a nil `ServiceDescriptor` it returns
immediately (no state, no deliveries); otherwise it runs the event loop
from the initial state. -/
def serviceClientWorker (sd : Option (Env Q C)) (inputs : List (Input Q C)) :
    Option (RunState Q) × List (Output C) :=
  match sd with
  | none => (none, [])
  | some env =>
    let r := runS env initState inputs
    (some r.1, r.2)

/-- The height an input declares, if any: a new-block header's height, a
subscription Block event's header height, or a subscription Tx event's
height. -/
def declaredHeight : Input Q C → Option Int
  | .newBlock h => some h
  | .subEvent _ ev =>
    match ev.block, ev.tx with
    | some b, _ => some b.headerHeight
    | none, some t => some t.height
    | none, none => none
  | _ => none

/-- Folding the declared heights of a trace over a starting height. -/
def hFold (h0 : Int) (l : List (Input Q C)) : Int :=
  l.foldl (fun h i => (declaredHeight i).getD h) h0

/-- The predicate the dispatch body filters sub-events with: the event's
type tag equals the descriptor's event type and the slot's query
matches. -/
def evtPred (env : Env Q C) (q : Q) (e : TmEvent) : Bool :=
  (e.type_ == env.eventType) && env.matchQ q e

/-- The sub-events one `ServiceEvent` decomposes into: begin-block then
end-block events for a Block, the result events for a Tx. -/
def subEvtsOf (ev : ServiceEvent) : List TmEvent :=
  match ev.block, ev.tx with
  | some b, _ => b.beginEvents ++ b.endEvents
  | none, some t => t.resultEvents
  | none, none => []

/-- The tx bytes attached to deliveries for one `ServiceEvent` (empty for
Block events). -/
def txBytesOf (ev : ServiceEvent) : List Nat :=
  match ev.block, ev.tx with
  | none, some t => t.tx
  | _, _ => []

/-- The worker state reached by a trace from the initial state, when the
run is still inside the loop. -/
def stateAfter (env : Env Q C) (tr : List (Input Q C)) : RunState Q :=
  (runS env initState tr).1

/-- The delivery invocations a trace produces from the initial state. -/
def outsAfter (env : Env Q C) (tr : List (Input Q C)) : List (Output C) :=
  (runS env initState tr).2

/-- The loop's height variable after a trace, when still running. -/
def heightAfter (env : Env Q C) (tr : List (Input Q C)) : Option Int :=
  match stateAfter env tr with
  | .running st => some st.height
  | _ => none

/-- Whether the command channel is armed after a trace, when still
running. -/
def enabledAfter (env : Env Q C) (tr : List (Input Q C)) : Option Bool :=
  match stateAfter env tr with
  | .running st => some (cmdEnabled st)
  | _ => none

/-- A concrete environment for witnesses: queries and commands are
numbers, the descriptor's event type is "x", query `q` matches events
whose attribute list is `[("k", "v")]`, every subscribe succeeds and no
delivery errors occur. -/
def env0 : Env Nat Nat :=
  { eventType := "x"
    matchQ := fun _ e => decide (e.attributes = [("k", "v")])
    subscribeRes := fun _ => SubscribeRes.ok
    devErr := fun _ _ _ => false }

/-- A concrete environment identical to the previous one except that the
engine rejects every subscribe. -/
def env1 : Env Nat Nat :=
  { eventType := "x"
    matchQ := fun _ e => decide (e.attributes = [("k", "v")])
    subscribeRes := fun _ => SubscribeRes.err
    devErr := fun _ _ _ => false }

end Services

namespace bundle

/-- `Manifest.SGX`, restricted to the two file names `Bundle.Validate`
reads. -/
structure SgxMeta where
  executable : String
  sig : String
  deriving DecidableEq, Repr

/-- The bundle manifest, restricted to the fields the shown code reads:
the ELF executable name, the optional SGX metadata, and the per-file
digest map (`Digests`), modelled as an association list with abstract
digest values. -/
structure Manifest where
  executable : String
  sgx : Option SgxMeta
  digests : List (String × List Nat)
  deriving DecidableEq, Repr

/-- A runtime bundle: the decoded manifest plus the extracted file
contents (`Data`), modelled as an association list.  Go's map stores the
non-nil byte slices produced by `io.ReadAll`, so key presence in the
list models `Data[k] != nil`. -/
structure Bundle where
  manifest : Manifest
  data : List (String × List Nat)
  deriving DecidableEq, Repr

/-- Insert with overwrite, modelling `data[name] = b` on a Go map. -/
def mapSet (m : List (String × List Nat)) (k : String) (v : List Nat) :
    List (String × List Nat) :=
  if (m.lookup k).isSome then
    m.map (fun p => if p.1 = k then (k, v) else p)
  else m ++ [(k, v)]

/-- The first loop of `Bundle.Validate`: every file the manifest names
must be non-empty in the manifest and present (non-empty) in the
bundle data.  A missing key reads as a nil slice of length 0 in Go. -/
def checkNeed (bnd : Bundle) : List (String × String) → Except String Unit
  | [] => Except.ok ()
  | (descr, fn) :: rest =>
    if fn = "" then
      Except.error ("runtime/bundle: missing " ++ descr ++ " in manifest")
    else if ((bnd.data.lookup fn).getD []).length = 0 then
      Except.error ("runtime/bundle: missing " ++ descr ++ " in bundle")
    else checkNeed bnd rest

/-- The second loop of `Bundle.Validate`: every data file needs a digest
entry matching its hash, except the manifest entry itself which may lack
one.  `hashOf` abstracts `hash.NewFromBytes`; `mn` abstracts the
`manifestName` constant (defined in a file of this package outside
`src/`); Go's nondeterministic map iteration order is fixed to list
order, which can change only which error is reported, not whether one
is. -/
def checkDigests (hashOf : List Nat → List Nat) (mn : String) (bnd : Bundle) :
    List (String × List Nat) → Except String Unit
  | [] => Except.ok ()
  | (fn, b) :: rest =>
    match bnd.manifest.digests.lookup fn with
    | none =>
      if fn = mn then checkDigests hashOf mn bnd rest
      else Except.error ("runtime/bundle: missing digest: " ++ fn)
    | some mh =>
      if hashOf b = mh then checkDigests hashOf mn bnd rest
      else Except.error ("runtime/bundle: invalid digest: " ++ fn)

/-- `Bundle.Validate`. -/
def Bundle.Validate (hashOf : List Nat → List Nat) (mn : String)
    (bnd : Bundle) : Except String Unit :=
  let needFiles :=
    ("ELF executable", bnd.manifest.executable) ::
      (match bnd.manifest.sgx with
        | some sgx => [("SGX executable", sgx.executable), ("SGX signature", sgx.sig)]
        | none => [])
  match checkNeed bnd needFiles with
  | Except.error e => Except.error e
  | Except.ok _ => checkDigests hashOf mn bnd bnd.data

/-- `Bundle.Write` up to the point of archive construction: validate,
serialize the manifest (`encode` abstracts `json.Marshal`), and refuse
any bundle whose data already contains a manifest entry.  Past that
check only the zip archive and the output file are produced; that IO is
abstracted as succeeding, which only strengthens any theorem that Write
fails. -/
def Bundle.Write (hashOf : List Nat → List Nat) (mn : String)
    (encode : Manifest → Option (List Nat)) (bnd : Bundle) :
    Except String Unit :=
  match Bundle.Validate hashOf mn bnd with
  | Except.error e =>
    Except.error ("runtime/bundle: refusing to write malformed bundle: " ++ e)
  | Except.ok _ =>
    match encode bnd.manifest with
    | none => Except.error "runtime/bundle: failed to serialize manifest"
    | some _raw =>
      if (bnd.data.lookup mn).isSome then
        Except.error "runtime/bundle: data contains manifest entry"
      else Except.ok ()

/-- The extraction loop of `Open`: the 0th archive entry must be named
`mn`, later entries must have a flat path (`flatPath` abstracts
`filepath.Dir(name) == "."`), and every entry's bytes are stored in the
data map.  Read errors are abstracted away (they only add failure
paths, and the claims condition on `Open` succeeding). -/
def readFiles (mn : String) (flatPath : String → Bool) :
    Nat → List (String × List Nat) → List (String × List Nat) →
      Except String (List (String × List Nat))
  | _, [], acc => Except.ok acc
  | i, (name, b) :: rest, acc =>
    if i = 0 then
      if name = mn then readFiles mn flatPath (i + 1) rest (mapSet acc name b)
      else Except.error ("runtime/bundle: invalid manifest file name: " ++ name)
    else
      if flatPath name then readFiles mn flatPath (i + 1) rest (mapSet acc name b)
      else Except.error ("runtime/bundle: failed to sanitize path " ++ name)

/-- `Open`: extract the archive entries, decode the manifest (`decode`
abstracts `json.Unmarshal` into `Manifest`), and validate the resulting
bundle. -/
def Open (hashOf : List Nat → List Nat) (mn : String)
    (flatPath : String → Bool) (decode : List Nat → Option Manifest)
    (files : List (String × List Nat)) : Except String Bundle :=
  match readFiles mn flatPath 0 files [] with
  | Except.error e => Except.error e
  | Except.ok data =>
    match data.lookup mn with
    | none => Except.error "runtime/bundle: missing manifest"
    | some b =>
      match decode b with
      | none => Except.error "runtime/bundle: failed to parse manifest"
      | some manifest =>
        match Bundle.Validate hashOf mn ⟨manifest, data⟩ with
        | Except.error e => Except.error e
        | Except.ok _ => Except.ok ⟨manifest, data⟩

end bundle

namespace signature

/-- `ed25519.PublicKeySize`. -/
def PublicKeySize : Nat := 32

/-- A signature bundled with the signing public key; byte strings are
lists of bytes. -/
structure Signature where
  publicKey : List Nat
  sig : List Nat
  deriving DecidableEq, Repr

/-- `PublicKey.ToMapKey`: converts a public key to a fixed-size map key,
panicking (`none`) when the key does not have the exact public key
size. -/
def ToMapKey (k : List Nat) : Option (List Nat) :=
  if k.length = PublicKeySize then some k else none

/-- `PublicKey.isBlacklisted`, with the process-wide
`blacklistedPublicKeys` registry passed as the explicit predicate `bl`
over map keys; `none` propagates the `ToMapKey` panic. -/
def isBlacklisted (bl : List Nat → Bool) (k : List Nat) : Option Bool :=
  (ToMapKey k).map bl

/-- Result of a call that can panic. -/
inductive VBResult where
  | panicked (msg : String)
  | res (b : Bool)
  deriving DecidableEq, Repr

/-- Result of the adaptation loop of `VerifyBatch`. -/
inductive CollectRes where
  | panicked (msg : String)
  | retFalse
  | collected (pks : List (List Nat)) (msgs : List (List Nat))
      (rawSigs : List (List Nat))
  deriving DecidableEq, Repr

/-- The `for i := range sigs` loop of `VerifyBatch` over the paired
(message, signature) list: return false on a blacklisted key (panicking
if the key has the wrong size), return false if
`PrepareSignerMessage` (`prep`) fails, and otherwise accumulate the
public keys, prepared messages and raw signatures in order. -/
def collect (bl : List Nat → Bool) (prep : List Nat → List Nat → Option (List Nat))
    (context : List Nat) : List (List Nat × Signature) → CollectRes
  | [] => CollectRes.collected [] [] []
  | (message, s) :: rest =>
    match isBlacklisted bl s.publicKey with
    | none => CollectRes.panicked "signature: public key invalid size for ID"
    | some true => CollectRes.retFalse
    | some false =>
      match prep context message with
      | none => CollectRes.retFalse
      | some m =>
        match collect bl prep context rest with
        | CollectRes.panicked msg => CollectRes.panicked msg
        | CollectRes.retFalse => CollectRes.retFalse
        | CollectRes.collected pks msgs rawSigs =>
          CollectRes.collected (s.publicKey :: pks) (m :: msgs)
            (s.sig :: rawSigs)

/-- `VerifyBatch`: panic on a message/signature count mismatch, run the
adaptation loop, then call the ed25519 batch verifier (`edVB`, abstract;
`none` models its error return, which yields false). -/
def VerifyBatch (bl : List Nat → Bool)
    (prep : List Nat → List Nat → Option (List Nat))
    (edVB : List (List Nat) → List (List Nat) → List (List Nat) → Option Bool)
    (context : List Nat) (messages : List (List Nat))
    (sigs : List Signature) : VBResult :=
  if messages.length ≠ sigs.length then
    VBResult.panicked "signature: VerifyBatch messages/signature count mismatch"
  else
    match collect bl prep context (messages.zip sigs) with
    | CollectRes.panicked m => VBResult.panicked m
    | CollectRes.retFalse => VBResult.res false
    | CollectRes.collected pks msgs rawSigs =>
      match edVB pks msgs rawSigs with
      | none => VBResult.res false
      | some allOk => VBResult.res allOk

end signature

namespace Services

variable {Q C : Type}

theorem deliverAll_eq_filter (env : Env Q C) (q : Q) (ht : Int) (tx : List Nat)
    (evs : List TmEvent) :
    deliverAll env q ht tx evs
      = (evs.filter (evtPred env q)).map (Output.deliverEvent ht tx) := by
  induction evs with
  | nil => rfl
  | cons e rest ih =>
    by_cases h1 : e.type_ = env.eventType
    · by_cases h2 : env.matchQ q e = true
      · by_cases h3 : env.devErr ht tx e = true
        · simp [deliverAll, evtPred, h1, h2, h3, ih, List.filter_cons]
        · simp [deliverAll, evtPred, h1, h2, h3, ih, List.filter_cons]
      · simp [deliverAll, evtPred, h1, h2, ih, List.filter_cons]
    · simp [deliverAll, evtPred, h1, ih, List.filter_cons]

theorem step_height (env : Env Q C) (st : WorkerState Q) (i : Input Q C)
    (st' : WorkerState Q) (outs : List (Output C))
    (h : step env st i = StepRes.cont st' outs) :
    st'.height = (declaredHeight i).getD st.height := by
  cases i with
  | ctxReady =>
    simp only [step] at h
    split at h <;> cases h
  | closed n =>
    simp only [step] at h
    split at h
    · split at h
      · cases h
      · cases h; rfl
    · cases h
  | newBlock hh =>
    simp only [step] at h
    split at h
    · cases h; rfl
    · cases h
  | newQuery q =>
    simp only [step] at h
    split at h
    · split at h <;> (cases h; rfl)
    · cases h
  | command c =>
    simp only [step] at h
    split at h
    · cases h; rfl
    · cases h
  | subEvent n ev =>
    obtain ⟨ob, ot⟩ := ev
    cases ob with
    | some b =>
      simp only [step] at h
      split at h
      · split at h
        · cases h; simp [declaredHeight]
        · cases h
      · cases h
    | none =>
      cases ot with
      | some t =>
        simp only [step] at h
        split at h
        · split at h
          · cases h; simp [declaredHeight]
          · cases h
        · cases h
      | none =>
        simp only [step] at h
        split at h
        · cases h; simp [declaredHeight]
        · cases h

theorem step_stuck_of_inert (env : Env Q C) (st : WorkerState Q) (i : Input Q C)
    (h : st.cases.getD (chosenIndex i) false = false) :
    step env st i = StepRes.stuck := by
  rw [List.getD_eq_getElem?_getD] at h
  unfold step
  simp [List.getD_eq_getElem?_getD, h]

theorem step_shape (env : Env Q C) (st : WorkerState Q) (i : Input Q C)
    (st' : WorkerState Q) (outs : List (Output C))
    (h : step env st i = StepRes.cont st' outs) :
    (st'.queries = st.queries ∧
      (st'.cases = st.cases ∨ (∃ n, st'.cases = st.cases.set n false) ∨
        st'.cases = st.cases.set 3 true))
    ∨ (∃ q, st'.queries = st.queries ++ [some q] ∧ st'.cases = st.cases ++ [true]) := by
  cases i with
  | ctxReady =>
    simp only [step] at h
    split at h <;> cases h
  | closed n =>
    simp only [step] at h
    split at h
    · split at h
      · cases h
      · cases h
        exact Or.inl ⟨rfl, Or.inr (Or.inl ⟨n, rfl⟩)⟩
    · cases h
  | newBlock hh =>
    simp only [step] at h
    split at h
    · cases h
      by_cases hz : st.height = 0
      · exact Or.inl ⟨rfl, Or.inr (Or.inr (by simp [hz]))⟩
      · exact Or.inl ⟨rfl, Or.inl (by simp [hz])⟩
    · cases h
  | newQuery q =>
    simp only [step] at h
    split at h
    · split at h
      · cases h; exact Or.inl ⟨rfl, Or.inl rfl⟩
      · cases h; exact Or.inl ⟨rfl, Or.inl rfl⟩
      · cases h; exact Or.inr ⟨q, rfl, rfl⟩
    · cases h
  | command c =>
    simp only [step] at h
    split at h
    · cases h; exact Or.inl ⟨rfl, Or.inl rfl⟩
    · cases h
  | subEvent n ev =>
    obtain ⟨ob, ot⟩ := ev
    cases ob with
    | some b =>
      simp only [step] at h
      split at h
      · split at h
        · cases h; exact Or.inl ⟨rfl, Or.inl rfl⟩
        · cases h
      · cases h
    | none =>
      cases ot with
      | some t =>
        simp only [step] at h
        split at h
        · split at h
          · cases h; exact Or.inl ⟨rfl, Or.inl rfl⟩
          · cases h
        · cases h
      | none =>
        simp only [step] at h
        split at h
        · cases h; exact Or.inl ⟨rfl, Or.inl rfl⟩
        · cases h

theorem getD3_set_ne (cs : List Bool) (n : Nat) (b : Bool) (hn : n ≠ 3) :
    (cs.set n b).getD 3 false = cs.getD 3 false := by
  simp only [List.getD_eq_getElem?_getD]
  rw [List.getElem?_set_ne hn]

theorem getD3_set3_false (cs : List Bool) :
    (cs.set 3 false).getD 3 false = false := by
  simp only [List.getD_eq_getElem?_getD]
  by_cases hl : 3 < cs.length
  · rw [List.getElem?_set_self hl]; rfl
  · rw [List.set_eq_of_length_le (Nat.le_of_not_lt hl)]
    rw [List.getElem?_eq_none (Nat.le_of_not_lt hl)]
    rfl

theorem getD3_set3_true (cs : List Bool) (hl : 3 < cs.length) :
    (cs.set 3 true).getD 3 false = true := by
  simp only [List.getD_eq_getElem?_getD]
  rw [List.getElem?_set_self hl]; rfl

theorem getD3_append (cs l : List Bool) (hl : 3 < cs.length) :
    (cs ++ l).getD 3 false = cs.getD 3 false := by
  simp only [List.getD_eq_getElem?_getD]
  rw [List.getElem?_append_left hl]

theorem cmd_triple_same (a : Bool) (i : Input Q C) (hz : Int) :
    (a = true → a = true ∨ ∃ hh, i = Input.newBlock hh)
    ∧ (a = false → a = true → (∃ hh, i = Input.newBlock hh) ∧ hz = 0)
    ∧ (a = true → a = false → i = Input.closed 3) := by
  refine ⟨fun h => Or.inl h, ?_, ?_⟩
  · intro hf ht
    rw [hf] at ht
    exact Bool.noConfusion ht
  · intro ht hf
    rw [ht] at hf
    exact Bool.noConfusion hf

theorem step_cmd (env : Env Q C) (st : WorkerState Q) (i : Input Q C)
    (st' : WorkerState Q) (outs : List (Output C))
    (h4 : 4 ≤ st.cases.length)
    (h : step env st i = StepRes.cont st' outs) :
    (cmdEnabled st' = true → cmdEnabled st = true ∨ ∃ hh, i = Input.newBlock hh)
    ∧ (cmdEnabled st = false → cmdEnabled st' = true →
        (∃ hh, i = Input.newBlock hh) ∧ st.height = 0)
    ∧ (cmdEnabled st = true → cmdEnabled st' = false → i = Input.closed 3) := by
  have hl3 : 3 < st.cases.length := by omega
  cases i with
  | ctxReady =>
    simp only [step] at h
    split at h <;> cases h
  | closed n =>
    simp only [step] at h
    split at h
    · split at h
      · cases h
      · cases h
        simp only [cmdEnabled]
        by_cases hn : n = 3
        · subst hn
          rw [getD3_set3_false]
          refine ⟨?_, ?_, ?_⟩
          · intro hc
            exact Bool.noConfusion hc
          · intro _ hc
            exact Bool.noConfusion hc
          · intro _ _
            rfl
        · rw [getD3_set_ne st.cases n false hn]
          exact cmd_triple_same (st.cases.getD 3 false) (Input.closed n) st.height
    · cases h
  | newBlock hh =>
    simp only [step] at h
    split at h
    · cases h
      simp only [cmdEnabled]
      refine ⟨fun _ => Or.inr ⟨hh, rfl⟩, ?_, ?_⟩
      · intro hf ht
        by_cases hz : st.height = 0
        · exact ⟨⟨hh, rfl⟩, hz⟩
        · rw [if_neg hz] at ht
          rw [hf] at ht
          exact Bool.noConfusion ht
      · intro ht hf
        by_cases hz : st.height = 0
        · rw [if_pos hz] at hf
          rw [getD3_set3_true st.cases hl3] at hf
          exact Bool.noConfusion hf
        · rw [if_neg hz] at hf
          rw [ht] at hf
          exact Bool.noConfusion hf
    · cases h
  | newQuery q =>
    simp only [step] at h
    split at h
    · split at h
      · cases h
        exact cmd_triple_same (cmdEnabled st) (Input.newQuery q) st.height
      · cases h
        exact cmd_triple_same (cmdEnabled st) (Input.newQuery q) st.height
      · cases h
        simp only [cmdEnabled]
        rw [getD3_append st.cases [true] hl3]
        exact cmd_triple_same (st.cases.getD 3 false) (Input.newQuery q) st.height
    · cases h
  | command c =>
    simp only [step] at h
    split at h
    · cases h
      exact cmd_triple_same (cmdEnabled st) (Input.command c) st.height
    · cases h
  | subEvent n ev =>
    obtain ⟨ob, ot⟩ := ev
    cases ob with
    | some b =>
      simp only [step] at h
      split at h
      · split at h
        · cases h
          exact cmd_triple_same (cmdEnabled st) (Input.subEvent n ⟨some b, ot⟩) st.height
        · cases h
      · cases h
    | none =>
      cases ot with
      | some t =>
        simp only [step] at h
        split at h
        · split at h
          · cases h
            exact cmd_triple_same (cmdEnabled st) (Input.subEvent n ⟨none, some t⟩) st.height
          · cases h
        · cases h
      | none =>
        simp only [step] at h
        split at h
        · cases h
          exact cmd_triple_same (cmdEnabled st) (Input.subEvent n ⟨none, none⟩) st.height
        · cases h

theorem step_len4 (env : Env Q C) (st : WorkerState Q) (i : Input Q C)
    (st' : WorkerState Q) (outs : List (Output C))
    (h : step env st i = StepRes.cont st' outs)
    (h4 : 4 ≤ st.cases.length) : 4 ≤ st'.cases.length := by
  rcases step_shape env st i st' outs h with ⟨-, hc | ⟨n, hc⟩ | hc⟩ | ⟨q, -, hc⟩
  · rw [hc]; exact h4
  · rw [hc, List.length_set]; exact h4
  · rw [hc, List.length_set]; exact h4
  · rw [hc, List.length_append]; omega

theorem runS_height (env : Env Q C) :
    ∀ (pre : List (Input Q C)) (st st' : WorkerState Q) (outs : List (Output C)),
      runS env st pre = (RunState.running st', outs) →
      st'.height = hFold st.height pre := by
  intro pre
  induction pre with
  | nil =>
    intro st st' outs h
    simp only [runS] at h
    cases h
    rfl
  | cons i rest ih =>
    intro st st' outs h
    simp only [runS] at h
    cases hs : step env st i with
    | stuck => rw [hs] at h; cases h
    | halt => rw [hs] at h; cases h
    | cont st1 outs1 =>
      rw [hs] at h
      have hrun : (runS env st1 rest).1 = RunState.running st' := congrArg Prod.fst h
      have h2 : runS env st1 rest = (RunState.running st', (runS env st1 rest).2) := by
        rw [← hrun]
      have hh := ih st1 st' (runS env st1 rest).2 h2
      rw [hh]
      have hstep := step_height env st i st1 outs1 hs
      simp only [hFold, List.foldl_cons]
      rw [← hstep]

theorem runS_len4 (env : Env Q C) :
    ∀ (pre : List (Input Q C)) (st st' : WorkerState Q) (outs : List (Output C)),
      4 ≤ st.cases.length →
      runS env st pre = (RunState.running st', outs) →
      4 ≤ st'.cases.length := by
  intro pre
  induction pre with
  | nil =>
    intro st st' outs h4 h
    simp only [runS] at h
    cases h
    exact h4
  | cons i rest ih =>
    intro st st' outs h4 h
    simp only [runS] at h
    cases hs : step env st i with
    | stuck => rw [hs] at h; cases h
    | halt => rw [hs] at h; cases h
    | cont st1 outs1 =>
      rw [hs] at h
      have hrun : (runS env st1 rest).1 = RunState.running st' := congrArg Prod.fst h
      have h2 : runS env st1 rest = (RunState.running st', (runS env st1 rest).2) := by
        rw [← hrun]
      exact ih st1 st' (runS env st1 rest).2 (step_len4 env st i st1 outs1 hs h4) h2

theorem runS_cmdEnabled_newBlock (env : Env Q C) :
    ∀ (pre : List (Input Q C)) (st st' : WorkerState Q) (outs : List (Output C)),
      4 ≤ st.cases.length →
      runS env st pre = (RunState.running st', outs) →
      cmdEnabled st' = true →
      cmdEnabled st = true ∨ ∃ hh, Input.newBlock hh ∈ pre := by
  intro pre
  induction pre with
  | nil =>
    intro st st' outs h4 h hen
    simp only [runS] at h
    cases h
    exact Or.inl hen
  | cons i rest ih =>
    intro st st' outs h4 h hen
    simp only [runS] at h
    cases hs : step env st i with
    | stuck => rw [hs] at h; cases h
    | halt => rw [hs] at h; cases h
    | cont st1 outs1 =>
      rw [hs] at h
      have hrun : (runS env st1 rest).1 = RunState.running st' := congrArg Prod.fst h
      have h2 : runS env st1 rest = (RunState.running st', (runS env st1 rest).2) := by
        rw [← hrun]
      have h41 : 4 ≤ st1.cases.length := step_len4 env st i st1 outs1 hs h4
      rcases ih st1 st' (runS env st1 rest).2 h41 h2 hen with hen1 | ⟨hh, hmem⟩
      · rcases (step_cmd env st i st1 outs1 h4 hs).1 hen1 with hen0 | ⟨hh, hi⟩
        · exact Or.inl hen0
        · exact Or.inr ⟨hh, by rw [hi]; exact List.mem_cons_self _ _⟩
      · exact Or.inr ⟨hh, List.mem_cons_of_mem i hmem⟩

theorem cmdEnabled_of_command_not_stuck (env : Env Q C) (st : WorkerState Q)
    (c : C) (h : step env st (Input.command c) ≠ StepRes.stuck) :
    cmdEnabled st = true := by
  by_contra hne
  have hf : st.cases.getD (chosenIndex (Input.command c : Input Q C)) false = false := by
    have : cmdEnabled st = false := by
      cases hcb : cmdEnabled st
      · rfl
      · exact absurd hcb hne
    exact this
  exact h (step_stuck_of_inert env st (Input.command c) hf)

/-- C1 (amended): commands are never delivered before a block notification
has been processed — an accepted command input is always preceded by a
block-notification input.  The command slot is armed only by processing a
block notification while the worker's height is still 0 (so a
subscription event that sets the height first suppresses arming), and it
is disarmed only by the command source signalling closure. -/
theorem serviceClientWorker_command_gating (env : Env Q C) :
    (∀ (pre : List (Input Q C)) (st : WorkerState Q) (outs : List (Output C)) (c : C),
        runS env initState pre = (RunState.running st, outs) →
        step env st (Input.command c) ≠ StepRes.stuck →
        ∃ hh, Input.newBlock hh ∈ pre)
    ∧ (∀ (st st' : WorkerState Q) (outs : List (Output C)) (i : Input Q C),
        4 ≤ st.cases.length →
        step env st i = StepRes.cont st' outs →
        (cmdEnabled st = false → cmdEnabled st' = true →
          (∃ hh, i = Input.newBlock hh) ∧ st.height = 0)
        ∧ (cmdEnabled st = true → cmdEnabled st' = false → i = Input.closed 3)) := by
  constructor
  · intro pre st outs c hrun hns
    have hen := cmdEnabled_of_command_not_stuck env st c hns
    have h4 : 4 ≤ (initState : WorkerState Q).cases.length := by
      simp [initState]
    rcases runS_cmdEnabled_newBlock env pre initState st outs h4 hrun hen with hinit | hex
    · exact Bool.noConfusion hinit
    · exact hex
  · intro st st' outs i h4 hstep
    exact ⟨(step_cmd env st i st' outs h4 hstep).2.1,
      (step_cmd env st i st' outs h4 hstep).2.2⟩

/-- C1 counterexample: with every subscribe succeeding, the trace
registers a query, then processes a subscription Tx event (height 5)
before the first block notification.  The block notification (height 6)
is then processed — the worker's first observed Block event — yet the
command-enabled state is still false afterwards, because the height was
no longer 0: the claimed false-to-true transition triggered by the first
Block event never happens. -/
theorem command_gating_counterexample :
    stateAfter env0
        [Input.newQuery 0, Input.subEvent 0 ⟨none, some ⟨5, [1], []⟩⟩, Input.newBlock 6]
      = RunState.running ⟨[true, true, true, false, true], [none, none, none, none, some 0], 6⟩
    ∧ enabledAfter env0
        [Input.newQuery 0, Input.subEvent 0 ⟨none, some ⟨5, [1], []⟩⟩, Input.newBlock 6]
      = some false
    ∧ Input.newBlock 6
        ∈ ([Input.newQuery 0, Input.subEvent 0 ⟨none, some ⟨5, [1], []⟩⟩,
            Input.newBlock 6] : List (Input Nat Nat)) := by
  refine ⟨by decide, by decide, by decide⟩

/-- C1 witness: after the single-block trace, the gating theorem applies
and Block 1 is found in the prefix. -/
theorem command_gating_witness :
    ∃ hh, Input.newBlock hh ∈ ([Input.newBlock 1] : List (Input Nat Nat)) :=
  (serviceClientWorker_command_gating env0).1 [Input.newBlock 1]
    ⟨[true, true, true, true], [none, none, none, none], 1⟩ [Output.deliverBlock 1] 5
    (by decide) (by decide)

/-- C6: whenever the cancellation slot is ready — by yielding a value or
by signalling closure — the loop returns on that same iteration, with no
further deliveries, regardless of how many dynamic slots the state
holds. -/
theorem ctx_cancellation (env : Env Q C) (st : WorkerState Q)
    (rest : List (Input Q C)) (h0 : st.cases.getD 0 false = true) :
    runS env st (Input.ctxReady :: rest) = (RunState.halted, [])
    ∧ runS env st (Input.closed 0 :: rest) = (RunState.halted, []) := by
  rw [List.getD_eq_getElem?_getD] at h0
  constructor
  · have hs : step env st (Input.ctxReady : Input Q C) = StepRes.halt := by
      unfold step
      simp [chosenIndex, h0]
    simp only [runS]
    rw [hs]
  · have hs : step env st (Input.closed 0 : Input Q C) = StepRes.halt := by
      unfold step
      simp [chosenIndex, h0]
    simp only [runS]
    rw [hs]

/-- C6 witness: cancellation from the initial state with one pending
input halts immediately. -/
theorem ctx_cancellation_witness :
    runS env0 initState [Input.ctxReady, Input.newBlock 1] = (RunState.halted, [])
    ∧ runS env0 initState [Input.closed 0, Input.newBlock 1] = (RunState.halted, []) :=
  ctx_cancellation env0 initState [Input.newBlock 1] (by decide)

/-- C5: when the engine rejects a query or returns a nil subscription
with a nil error, the registration step leaves the state untouched (no
wait-set slot or query-list growth), produces no deliveries, does not
panic (the step is a total function returning cont), and the rest of the
trace is processed exactly as if the registration had not occurred. -/
theorem subscribe_failure (env : Env Q C) (st : WorkerState Q) (q : Q)
    (rest : List (Input Q C))
    (hq : env.subscribeRes q = SubscribeRes.err ∨ env.subscribeRes q = SubscribeRes.nilSub)
    (h2 : st.cases.getD 2 false = true) :
    step env st (Input.newQuery q) = StepRes.cont st []
    ∧ runS env st (Input.newQuery q :: rest) = runS env st rest := by
  have hs : step env st (Input.newQuery q) = StepRes.cont st [] := by
    rw [List.getD_eq_getElem?_getD] at h2
    unfold step
    rcases hq with hq | hq <;> simp [chosenIndex, h2, hq]
  refine ⟨hs, ?_⟩
  simp only [runS]
  rw [hs]
  simp

/-- C5 witness: a rejected registration followed by a block behaves like
the block alone. -/
theorem subscribe_failure_witness :
    step env1 initState (Input.newQuery 0) = StepRes.cont initState []
    ∧ runS env1 initState [Input.newQuery 0, Input.newBlock 1]
        = runS env1 initState [Input.newBlock 1] :=
  subscribe_failure env1 initState 0 [Input.newBlock 1] (Or.inl rfl) (by decide)

/-- C8: a nil ServiceDescriptor makes the worker return immediately: no
run state is ever constructed and no delivery callback is invoked, for
every input sequence. -/
theorem nil_descriptor (inputs : List (Input Q C)) :
    serviceClientWorker (none : Option (Env Q C)) inputs = (none, []) := rfl

/-- C2: for a subscription slot bound to query q, the sub-events for
which DeliverEvent is invoked are exactly those sub-events of the batch
whose type tag equals the descriptor's event type and which match q; and
the batch loop's output is independent of which DeliverEvent calls
return errors, so one failing delivery never suppresses the remaining
matching sub-events of the same batch. -/
theorem event_filtering (env : Env Q C) :
    (∀ (st : WorkerState Q) (n : Nat) (ev : ServiceEvent) (st' : WorkerState Q)
        (outs : List (Output C)) (q : Q),
        step env st (Input.subEvent n ev) = StepRes.cont st' outs →
        st.queries.getD (4 + n) none = some q →
        ∀ e : TmEvent,
          (Output.deliverEvent st'.height (txBytesOf ev) e ∈ outs ↔
            e ∈ subEvtsOf ev ∧ evtPred env q e = true))
    ∧ (∀ (f g : Int → List Nat → TmEvent → Bool) (q : Q) (ht : Int)
        (tx : List Nat) (evs : List TmEvent),
        deliverAll (⟨env.eventType, env.matchQ, env.subscribeRes, f⟩ : Env Q C) q ht tx evs
          = deliverAll (⟨env.eventType, env.matchQ, env.subscribeRes, g⟩ : Env Q C) q ht tx evs) := by
  constructor
  · intro st n ev st' outs q h hq e
    obtain ⟨ob, ot⟩ := ev
    cases ob with
    | some b =>
      simp only [step] at h
      split at h
      · rw [hq] at h
        cases h
        simp only [deliverAll_eq_filter, subEvtsOf, txBytesOf]
        simp [List.mem_filter]
        tauto
      · cases h
    | none =>
      cases ot with
      | some t =>
        simp only [step] at h
        split at h
        · rw [hq] at h
          cases h
          simp only [deliverAll_eq_filter, subEvtsOf, txBytesOf]
          simp [List.mem_filter]
        · cases h
      | none =>
        simp only [step] at h
        split at h
        · cases h
          simp [subEvtsOf]
        · cases h
  · intro f g q ht tx evs
    rw [deliverAll_eq_filter, deliverAll_eq_filter]
    rfl

/-- C2 witness: a concrete Tx batch containing one matching and one
non-matching event delivers exactly the matching one. -/
theorem event_filtering_witness :
    Output.deliverEvent 2 [9] ⟨"x", [("k", "v")]⟩
        ∈ ([Output.deliverEvent 2 [9] ⟨"x", [("k", "v")]⟩] : List (Output Nat)) ↔
      (⟨"x", [("k", "v")]⟩ : TmEvent)
          ∈ subEvtsOf ⟨none, some ⟨2, [9], [⟨"x", [("k", "v")]⟩, ⟨"x", [("k", "w")]⟩]⟩⟩
        ∧ evtPred env0 0 ⟨"x", [("k", "v")]⟩ = true :=
  (event_filtering env0).1
    ⟨[true, true, true, false, true], [none, none, none, none, some 0], 0⟩ 0
    ⟨none, some ⟨2, [9], [⟨"x", [("k", "v")]⟩, ⟨"x", [("k", "w")]⟩]⟩⟩
    ⟨[true, true, true, false, true], [none, none, none, none, some 0], 2⟩
    [Output.deliverEvent 2 [9] ⟨"x", [("k", "v")]⟩] 0
    (by decide) (by decide) ⟨"x", [("k", "v")]⟩

/-- C4: the dispatch body enumerates a Block event's sub-events as its
begin-block list followed by its end-block list, and a Tx event's
sub-events in result index order with the originating tx bytes attached:
the emitted invocation list is the order-preserving filter of that
natural order. -/
theorem event_order (env : Env Q C) (st : WorkerState Q) (n : Nat) (q : Q)
    (hq : st.queries.getD (4 + n) none = some q) :
    (∀ (b : EventDataNewBlockHeader) (st' : WorkerState Q) (outs : List (Output C)),
        step env st (Input.subEvent n ⟨some b, none⟩) = StepRes.cont st' outs →
        outs = ((b.beginEvents ++ b.endEvents).filter (evtPred env q)).map
          (Output.deliverEvent b.headerHeight []))
    ∧ (∀ (t : EventDataTx) (st' : WorkerState Q) (outs : List (Output C)),
        step env st (Input.subEvent n ⟨none, some t⟩) = StepRes.cont st' outs →
        outs = (t.resultEvents.filter (evtPred env q)).map
          (Output.deliverEvent t.height t.tx)) := by
  constructor
  · intro b st' outs h
    simp only [step] at h
    split at h
    · rw [hq] at h
      cases h
      exact deliverAll_eq_filter env q b.headerHeight [] (b.beginEvents ++ b.endEvents)
    · cases h
  · intro t st' outs h
    simp only [step] at h
    split at h
    · rw [hq] at h
      cases h
      exact deliverAll_eq_filter env q t.height t.tx t.resultEvents
    · cases h

/-- C4 witness: a concrete Block batch is delivered in begin-then-end
order. -/
theorem event_order_witness :
    ([Output.deliverEvent 3 [] ⟨"x", [("k", "v")]⟩] : List (Output Nat))
      = (([⟨"y", []⟩] ++ [⟨"x", [("k", "v")]⟩] : List TmEvent).filter (evtPred env0 0)).map
          (Output.deliverEvent 3 []) :=
  (event_order env0
      ⟨[true, true, true, false, true], [none, none, none, none, some 0], 0⟩ 0 0
      (by decide)).1 ⟨3, [⟨"y", []⟩], [⟨"x", [("k", "v")]⟩]⟩
    ⟨[true, true, true, false, true], [none, none, none, none, some 0], 3⟩
    [Output.deliverEvent 3 [] ⟨"x", [("k", "v")]⟩] (by decide)

/-- C3 (amended): after each processed event the worker's height equals
the fold of the declared heights over the trace (so it equals the last
processed event's declared height), and one step never decreases the
height provided the event's declared height is at least the current
height; the code itself does not enforce monotonicity when events arrive
with decreasing declared heights. -/
theorem height_tracking (env : Env Q C) :
    (∀ (pre : List (Input Q C)) (st st' : WorkerState Q) (outs : List (Output C)),
        runS env st pre = (RunState.running st', outs) →
        st'.height = hFold st.height pre)
    ∧ (∀ (st : WorkerState Q) (i : Input Q C) (st' : WorkerState Q) (outs : List (Output C)),
        step env st i = StepRes.cont st' outs →
        (∀ hh, declaredHeight i = some hh → st.height ≤ hh) →
        st.height ≤ st'.height) := by
  constructor
  · exact runS_height env
  · intro st i st' outs hs hmono
    have hh := step_height env st i st' outs hs
    cases hd : declaredHeight i with
    | none =>
      rw [hd] at hh
      have heq : st'.height = st.height := hh
      omega
    | some hv =>
      rw [hd] at hh
      have heq : st'.height = hv := hh
      have := hmono hv hd
      omega

/-- C3 counterexample: a subscription Tx event with height 2 processed
before a block notification with height 1 makes the worker's height
decrease from 2 to 1 — the height sequence is not monotonically
non-decreasing for this processed sequence. -/
theorem height_tracking_counterexample :
    heightAfter env0 [Input.newQuery 0, Input.subEvent 0 ⟨none, some ⟨2, [1], []⟩⟩] = some 2
    ∧ heightAfter env0
        [Input.newQuery 0, Input.subEvent 0 ⟨none, some ⟨2, [1], []⟩⟩, Input.newBlock 1]
      = some 1 := by
  refine ⟨by decide, by decide⟩

/-- C3 witness: the height after one block of height 3 is the declared
height 3. -/
theorem height_tracking_witness :
    (⟨[true, true, true, true], [none, none, none, none], 3⟩ : WorkerState Nat).height
      = hFold (initState : WorkerState Nat).height
          ([Input.newBlock 3] : List (Input Nat Nat)) :=
  (height_tracking env0).1 [Input.newBlock 3] initState
    ⟨[true, true, true, true], [none, none, none, none], 3⟩ [Output.deliverBlock 3]
    (by decide)

/-- C7 (amended): wait-set slots are never removed and indices are
stable — the slot list only grows, the query list is only appended to,
and cases/queries lengths stay paired; a closed non-cancellation slot is
replaced by the blocked placeholder with no deliveries; an inert slot
other than the command slot stays inert across every step; and an inert
slot can never be the selected slot.  (The command slot, index 3, is the
exception the original claim misses: after its source closes it can be
re-armed by a block notification processed while height is 0.) -/
theorem waitSet_slot_stability (env : Env Q C) :
    (∀ (st : WorkerState Q) (i : Input Q C) (st' : WorkerState Q) (outs : List (Output C)),
        step env st i = StepRes.cont st' outs →
        st.cases.length ≤ st'.cases.length
        ∧ st'.queries.take st.queries.length = st.queries
        ∧ (st.cases.length = st.queries.length → st'.cases.length = st'.queries.length))
    ∧ (∀ (st : WorkerState Q) (n : Nat) (st' : WorkerState Q) (outs : List (Output C)),
        n ≠ 0 →
        step env st (Input.closed n) = StepRes.cont st' outs →
        st'.cases.getD n true = false ∧ outs = [])
    ∧ (∀ (st : WorkerState Q) (i : Input Q C) (st' : WorkerState Q)
        (outs : List (Output C)) (n : Nat),
        n ≠ 3 → st.cases.getD n true = false →
        step env st i = StepRes.cont st' outs →
        st'.cases.getD n true = false)
    ∧ (∀ (st : WorkerState Q) (i : Input Q C),
        st.cases.getD (chosenIndex i) false = false →
        step env st i = StepRes.stuck) := by
  refine ⟨?_, ?_, ?_, step_stuck_of_inert env⟩
  · intro st i st' outs h
    rcases step_shape env st i st' outs h with ⟨hqs, hc | ⟨n, hc⟩ | hc⟩ | ⟨q, hqs, hc⟩
    · rw [hqs, hc]
      exact ⟨Nat.le_refl _, List.take_length _, fun he => he⟩
    · rw [hqs, hc, List.length_set]
      exact ⟨Nat.le_refl _, List.take_length _, fun he => he⟩
    · rw [hqs, hc, List.length_set]
      exact ⟨Nat.le_refl _, List.take_length _, fun he => he⟩
    · constructor
      · rw [hc, List.length_append]
        exact Nat.le_add_right _ _
      constructor
      · rw [hqs]
        exact List.take_left _ _
      · intro he
        rw [hc, hqs]
        simp [List.length_append, he]
  · intro st n st' outs hn h
    simp only [step] at h
    rw [if_neg hn] at h
    split at h
    · rename_i hvalid
      cases h
      refine ⟨?_, rfl⟩
      simp only [List.getD_eq_getElem?_getD, chosenIndex] at hvalid ⊢
      have hlt : n < st.cases.length := by
        by_contra hge
        rw [List.getElem?_eq_none (Nat.le_of_not_lt hge)] at hvalid
        exact Bool.noConfusion hvalid
      rw [List.getElem?_set_self hlt]
      rfl
    · cases h
  · intro st i st' outs n hn3 hinert h
    have hsome : st.cases[n]? = some false := by
      simp only [List.getD_eq_getElem?_getD] at hinert
      cases hx : st.cases[n]? with
      | none => rw [hx] at hinert; exact Bool.noConfusion hinert
      | some b =>
        rw [hx] at hinert
        simp only [Option.getD_some] at hinert
        rw [hinert]
    have hlt : n < st.cases.length := by
      by_contra hge
      rw [List.getElem?_eq_none (Nat.le_of_not_lt hge)] at hsome
      cases hsome
    rcases step_shape env st i st' outs h with ⟨-, hc | ⟨m, hc⟩ | hc⟩ | ⟨q, -, hc⟩
    · rw [hc]; exact hinert
    · rw [hc]
      simp only [List.getD_eq_getElem?_getD]
      by_cases hm : m = n
      · subst hm
        by_cases hl : m < st.cases.length
        · rw [List.getElem?_set_self hl]; rfl
        · rw [List.set_eq_of_length_le (Nat.le_of_not_lt hl), hsome]; rfl
      · rw [List.getElem?_set_ne hm, hsome]; rfl
    · rw [hc]
      simp only [List.getD_eq_getElem?_getD]
      rw [List.getElem?_set_ne (fun he => hn3 he.symm), hsome]
      rfl
    · rw [hc]
      simp only [List.getD_eq_getElem?_getD]
      rw [List.getElem?_append_left hlt, hsome]
      rfl

/-- C7 counterexample: the command slot (a non-cancellation slot) closes
after being armed by a height-0 block, is re-armed by a second height-0
block, and is then selected again — delivering a command — contradicting
"never again reported ready" for closed non-cancellation slots. -/
theorem waitSet_slot_stability_counterexample :
    stateAfter env0 [Input.newBlock 0, Input.closed 3, Input.newBlock 0, Input.command 5]
      = RunState.running ⟨[true, true, true, true], [none, none, none, none], 0⟩
    ∧ Output.deliverCommand 0 5
        ∈ outsAfter env0 [Input.newBlock 0, Input.closed 3, Input.newBlock 0, Input.command 5] := by
  refine ⟨by decide, by decide⟩

/-- C7 witness: closing the dynamic slot 4 marks it inert with no
deliveries. -/
theorem waitSet_slot_stability_witness :
    (⟨[true, true, true, false, false], [none, none, none, none, some 0], 0⟩
        : WorkerState Nat).cases.getD 4 true = false
    ∧ ([] : List (Output Nat)) = [] :=
  (waitSet_slot_stability env0).2.1
    ⟨[true, true, true, false, true], [none, none, none, none, some 0], 0⟩ 4
    ⟨[true, true, true, false, false], [none, none, none, none, some 0], 0⟩ []
    (by decide) (by decide)

end Services

namespace bundle

/-- C9: an Open-then-Write round trip never succeeds: every bundle value
`Open` returns has a manifest entry in its data map (the archive's 0th
entry must be the manifest), and `Write` refuses any bundle whose data
contains a manifest entry — or fails even earlier — so `Write` always
returns an error on a bundle produced by `Open`. -/
theorem open_write_roundtrip (hashOf : List Nat → List Nat) (mn : String)
    (flatPath : String → Bool) (decode : List Nat → Option Manifest)
    (encode : Manifest → Option (List Nat)) (files : List (String × List Nat))
    (bnd : Bundle)
    (h : Open hashOf mn flatPath decode files = Except.ok bnd) :
    ∃ e, Bundle.Write hashOf mn encode bnd = Except.error e := by
  unfold Open at h
  split at h
  · cases h
  · rename_i data hrf
    split at h
    · cases h
    · rename_i b hlook
      split at h
      · cases h
      · rename_i manifest hdec
        split at h
        · cases h
        · rename_i u hval
          cases h
          unfold Bundle.Write
          rw [hval]
          cases henc : encode manifest with
          | none => exact ⟨"runtime/bundle: failed to serialize manifest", rfl⟩
          | some raw =>
            refine ⟨"runtime/bundle: data contains manifest entry", ?_⟩
            have hsome : (data.lookup mn).isSome = true := by
              rw [hlook]
              rfl
            rw [hsome]
            rfl

/-- C9 witness: a two-entry archive (manifest plus executable) opens
successfully and the opened bundle is refused by Write. -/
theorem open_write_roundtrip_witness :
    ∃ e, Bundle.Write (fun b => b) "m" (fun _ => some [7])
        ⟨⟨"app", none, [("app", [1])]⟩, [("m", [7]), ("app", [1])]⟩
      = Except.error e :=
  open_write_roundtrip (fun b => b) "m" (fun _ => true)
    (fun bs => if bs = [7] then some ⟨"app", none, [("app", [1])]⟩ else none)
    (fun _ => some [7]) [("m", [7]), ("app", [1])]
    ⟨⟨"app", none, [("app", [1])]⟩, [("m", [7]), ("app", [1])]⟩ rfl

end bundle

namespace signature

theorem collect_no_panic (bl : List Nat → Bool)
    (prep : List Nat → List Nat → Option (List Nat)) (context : List Nat) :
    ∀ (pairs : List (List Nat × Signature)),
      (∀ p ∈ pairs, p.2.publicKey.length = PublicKeySize) →
      ∀ m, collect bl prep context pairs ≠ CollectRes.panicked m := by
  intro pairs
  induction pairs with
  | nil =>
    intro _ m h
    cases h
  | cons p rest ih =>
    intro hsz m h
    obtain ⟨message, sg⟩ := p
    have hsg : sg.publicKey.length = PublicKeySize :=
      hsz (message, sg) (List.mem_cons_self _ _)
    cases hbl : bl sg.publicKey with
    | true =>
      simp only [collect, isBlacklisted, ToMapKey, if_pos hsg, Option.map_some', hbl] at h
      cases h
    | false =>
      simp only [collect, isBlacklisted, ToMapKey, if_pos hsg, Option.map_some', hbl] at h
      cases hprep : prep context message with
      | none =>
        rw [hprep] at h
        cases h
      | some mm =>
        rw [hprep] at h
        cases hcol : collect bl prep context rest with
        | panicked m2 =>
          rw [hcol] at h
          cases h
          exact ih (fun p hp => hsz p (List.mem_cons_of_mem _ hp)) _ hcol
        | retFalse =>
          rw [hcol] at h
          cases h
        | collected pks msgs rawSigs =>
          rw [hcol] at h
          cases h

theorem collect_blacklisted (bl : List Nat → Bool)
    (prep : List Nat → List Nat → Option (List Nat)) (context : List Nat) :
    ∀ (pairs : List (List Nat × Signature)),
      (∀ p ∈ pairs, p.2.publicKey.length = PublicKeySize) →
      (∃ p ∈ pairs, bl p.2.publicKey = true) →
      collect bl prep context pairs = CollectRes.retFalse := by
  intro pairs
  induction pairs with
  | nil =>
    intro _ hex
    rcases hex with ⟨p, hp, -⟩
    cases hp
  | cons p rest ih =>
    intro hsz hex
    obtain ⟨message, sg⟩ := p
    have hsg : sg.publicKey.length = PublicKeySize :=
      hsz (message, sg) (List.mem_cons_self _ _)
    cases hbl : bl sg.publicKey with
    | true =>
      simp only [collect, isBlacklisted, ToMapKey, if_pos hsg, Option.map_some', hbl]
    | false =>
      simp only [collect, isBlacklisted, ToMapKey, if_pos hsg, Option.map_some', hbl]
      have hrest : ∃ p ∈ rest, bl p.2.publicKey = true := by
        rcases hex with ⟨q, hq, hblq⟩
        rcases List.mem_cons.mp hq with heq | hmem
        · rw [heq] at hblq
          rw [hblq] at hbl
          cases hbl
        · exact ⟨q, hmem, hblq⟩
      have hcol := ih (fun p hp => hsz p (List.mem_cons_of_mem _ hp)) hrest
      cases hprep : prep context message with
      | none => rfl
      | some m =>
        rw [hcol]

/-- C10 (amended): VerifyBatch panics whenever the number of messages
differs from the number of signatures.  For equal counts it can still
panic when some public key does not have the exact public key size (the
blacklist lookup's map-key conversion panics on it); when every public
key has the right size it never panics, and it returns false whenever
any signature's public key is blacklisted. -/
theorem VerifyBatch_spec (bl : List Nat → Bool)
    (prep : List Nat → List Nat → Option (List Nat))
    (edVB : List (List Nat) → List (List Nat) → List (List Nat) → Option Bool)
    (context : List Nat) (messages : List (List Nat)) (sigs : List Signature) :
    (messages.length ≠ sigs.length →
      VerifyBatch bl prep edVB context messages sigs
        = VBResult.panicked "signature: VerifyBatch messages/signature count mismatch")
    ∧ (messages.length = sigs.length →
      (∀ s ∈ sigs, s.publicKey.length = PublicKeySize) →
      (∀ m, VerifyBatch bl prep edVB context messages sigs ≠ VBResult.panicked m)
      ∧ ((∃ s ∈ sigs, bl s.publicKey = true) →
        VerifyBatch bl prep edVB context messages sigs = VBResult.res false)) := by
  constructor
  · intro hne
    unfold VerifyBatch
    rw [if_pos hne]
  · intro hlen hsz
    have hpairs : ∀ p ∈ messages.zip sigs, p.2.publicKey.length = PublicKeySize := by
      intro p hp
      exact hsz p.2 (List.of_mem_zip hp).2
    constructor
    · intro m hpan
      unfold VerifyBatch at hpan
      rw [if_neg (fun hc => hc hlen)] at hpan
      split at hpan
      · rename_i m' hcol
        cases hpan
        exact collect_no_panic bl prep context (messages.zip sigs) hpairs _ hcol
      · cases hpan
      · split at hpan <;> cases hpan
    · intro hex
      have hexp : ∃ p ∈ messages.zip sigs, bl p.2.publicKey = true := by
        rcases hex with ⟨sg, hmem, hbl⟩
        have hmap : (messages.zip sigs).map Prod.snd = sigs :=
          List.map_snd_zip messages sigs (Nat.le_of_eq hlen.symm)
        rw [← hmap] at hmem
        rcases List.mem_map.mp hmem with ⟨p, hp, hps⟩
        exact ⟨p, hp, by rw [hps]; exact hbl⟩
      have hcol := collect_blacklisted bl prep context (messages.zip sigs) hpairs hexp
      unfold VerifyBatch
      rw [if_neg (fun hc => hc hlen), hcol]

/-- C10 counterexample: with equal message and signature counts (one
each), a default-valued empty public key makes VerifyBatch panic inside
the blacklist map-key conversion — refuting the claim that it never
panics for equal lengths. -/
theorem VerifyBatch_counterexample :
    ([[1]] : List (List Nat)).length = [(⟨[], []⟩ : Signature)].length
    ∧ VerifyBatch (fun _ => false) (fun _ m => some m) (fun _ _ _ => some true)
        [] [[1]] [⟨[], []⟩]
      = VBResult.panicked "signature: public key invalid size for ID" :=
  ⟨rfl, rfl⟩

/-- C10 witness: a well-sized blacklisted key yields the result false
through the amended theorem. -/
theorem VerifyBatch_spec_witness :
    VerifyBatch (fun _ => true) (fun _ m => some m) (fun _ _ _ => some true)
        [] [[1]] [⟨List.replicate 32 0, []⟩]
      = VBResult.res false :=
  ((VerifyBatch_spec (fun _ => true) (fun _ m => some m) (fun _ _ _ => some true)
      [] [[1]] [⟨List.replicate 32 0, []⟩]).2 rfl (by decide)).2
    ⟨⟨List.replicate 32 0, []⟩, by decide, rfl⟩

end signature
